import Mathlib

/-! ## Definitions

### Path normalizer (`normalizePath`, umami.mjs lines 80-110) -/

/-- Character class used by JavaScript `String.prototype.trim` restricted to
the ASCII whitespace characters (the only ones this development reasons
about; `'/'` and all characters appearing in normalized paths are outside
the class in either reading). -/
def jsWhitespaceB (c : Char) : Bool :=
  c = ' ' || c = '\t' || c = '\n' || c = '\r' || c = '\x0b' || c = '\x0c'

/-- Drop leading whitespace, as the first half of `String(name).trim()`. -/
def trimStart (l : List Char) : List Char := l.dropWhile jsWhitespaceB

/-- Drop trailing whitespace, as the second half of `String(name).trim()`. -/
def trimEnd (l : List Char) : List Char := (l.reverse.dropWhile jsWhitespaceB).reverse

/-- `String(name).trim()` from line 82. -/
def jsTrim (l : List Char) : List Char := trimEnd (trimStart l)

/-- Does the list start with `"//"`?  Helper for the scheme test. -/
def schemeSepAt : List Char → Bool
  | '/' :: '/' :: _ => true
  | _ => false

/-- Matches the regex tail `[a-zA-Z0-9+.-]*://` of line 86: scheme
characters up to the first `':'`, which must be followed by `"//"`. -/
def schemeRest : List Char → Bool
  | [] => false
  | c :: rest =>
    if c = ':' then schemeSepAt rest
    else (c.isAlphanum || c = '+' || c = '.' || c = '-') && schemeRest rest

/-- The test `/^[a-zA-Z][a-zA-Z0-9+.-]*:\x2f\x2f/.test(raw)` of line 86. -/
def hasSchemeMark : List Char → Bool
  | [] => false
  | c :: rest => c.isAlpha && schemeRest rest

/-- The characters after the first occurrence of `"://"`, if any. -/
def afterSchemeSep : List Char → Option (List Char)
  | [] => none
  | ':' :: '/' :: '/' :: rest => some rest
  | _ :: rest => afterSchemeSep rest

/-- Is the character a query or fragment delimiter? -/
def isQueryHash (c : Char) : Bool := c = '?' || c = '#'

/-- Model of the WHATWG URL pathname extraction `new URL(raw).pathname`
performed on lines 88-89 for inputs matching the scheme pattern: the
authority is the run after `"://"` up to the first `'/'`, `'?'` or `'#'`;
the pathname runs from that `'/'` (if present) up to the first `'?'` or
`'#'`.  Parse failure (the `catch` on line 90) is modelled as an empty
authority.  Returns `none` on parse failure. -/
def urlPathname (l : List Char) : Option (List Char) :=
  match afterSchemeSep l with
  | none => none
  | some rest =>
    let auth := rest.takeWhile (fun c => !(c = '/' || c = '?' || c = '#'))
    if auth.isEmpty then none
    else
      match rest.drop auth.length with
      | '/' :: tail => some (('/' :: tail).takeWhile (fun c => !isQueryHash c))
      | _ => some []

/-- Lines 96-99: `cut` is the earliest of `indexOf('?')` and `indexOf('#')`
(when present) and the string is sliced to `raw.slice(0, cut)`; taking the
first index at which either character occurs is exactly that minimum. -/
def cutQueryHash (l : List Char) : List Char :=
  match l.findIdx? isQueryHash with
  | some i => l.take i
  | none => l

/-- Line 101: `raw.replace(/\x2f{2,}/g, '/')` — collapse every run of two
or more consecutive slashes into one. -/
def collapseSlashes : List Char → List Char
  | [] => []
  | [c] => [c]
  | c :: d :: rest =>
    if c = '/' && d = '/' then collapseSlashes (d :: rest)
    else c :: collapseSlashes (d :: rest)

/-- Line 102: `if (!raw.startsWith('/')) raw = '/' + raw`. -/
def addLeadingSlash (l : List Char) : List Char :=
  if l.head? = some '/' then l else '/' :: l

/-- Lines 103-107: keep the string when it is longer than one character and
ends in `'/'`; otherwise append `'/'` unless the string is exactly `"/"`. -/
def addTrailingSlash (l : List Char) : List Char :=
  if 1 < l.length ∧ l.getLast? = some '/' then l
  else if l ≠ ['/'] then l ++ ['/'] else l

/-- `normalizePath(name)` from umami.mjs lines 80-110.  `none` embeds the
`undefined`/`null` inputs of line 81; the `String(...)` coercion is the
identity on the string inputs considered here. -/
def normalizePath (name : Option (List Char)) : List Char :=
  match name with
  | none => ['/']
  | some s =>
    let r0 := jsTrim s
    if r0 = [] then ['/']
    else
      let r1 :=
        if hasSchemeMark r0 then
          match urlPathname r0 with
          | some p => if p = [] then ['/'] else p
          | none => r0
        else r0
      let r2 := cutQueryHash r1
      let r3 := collapseSlashes r2
      let r4 := addLeadingSlash r3
      let r5 := addTrailingSlash r4
      if r5 = [] then ['/'] else r5

/-- No two consecutive slashes, as a relation for `List.Chain'`. -/
def notBothSlash (a b : Char) : Prop := ¬(a = '/' ∧ b = '/')

/-- The invariant every normalizer output satisfies: it begins and ends
with `'/'`, has no two consecutive slashes, and contains no query or
fragment delimiter. -/
def GoodKey (l : List Char) : Prop :=
  l.head? = some '/' ∧ l.getLast? = some '/' ∧ List.Chain' notBothSlash l ∧
    ∀ c ∈ l, isQueryHash c = false

/-! ### JavaScript value helpers shared by the auth components -/

/-- The JavaScript nullish-coalescing operator `a ?? b`: the fallback is
used only when `a` is `null`/`undefined` (here: `none`), never when `a` is
a present value such as the empty string. -/
def jsCoalesce (a b : Option String) : Option String :=
  match a with
  | none => b
  | some x => some x

/-- JavaScript truthiness of a possibly-absent string: `undefined`, `null`
and `""` are falsy, every other string is truthy. -/
def truthy (v : Option String) : Bool :=
  match v with
  | none => false
  | some s => s ≠ ""

/-! ### Aggregation and pagination (`exportPathVisitors`, umami.mjs lines 247-297) -/

/-- The `visitors` field of a raw API row, before the coercion
`Number(row?.visitors ?? 0)` of line 282: it is absent, or a (possibly
string-encoded) value whose coercion is a finite number `q`, or a value
whose coercion is `NaN`/`±Infinity` (for example the string `"abc"`). -/
inductive VisitorsField
  | absent
  | num (q : ℚ)
  | nonNumeric
deriving DecidableEq, Repr

/-- One record of an API response page (`row` on line 280); `name` is the
`row?.name` access of line 281 with `none` for an absent field. -/
structure RawRow where
  name : Option (List Char)
  visitors : VisitorsField
deriving DecidableEq, Repr

/-- Lines 282-283: `Number(row?.visitors ?? 0)` followed by the
`Number.isFinite` gate — an absent field coerces to `0`, a finite value to
itself, and a non-finite coercion makes the guard skip the row (`none`). -/
def parsedVisitors (r : RawRow) : Option ℚ :=
  match r.visitors with
  | VisitorsField.absent => some 0
  | VisitorsField.num q => some q
  | VisitorsField.nonNumeric => none

/-- The `totals` object of line 265: a JavaScript object with no inherited
keys, read through `totals[path]` which is `none` for a never-written key. -/
def Totals : Type := List Char → Option ℚ

/-- Line 265: `Object.create(null)` — no keys present. -/
def emptyTotals : Totals := fun _ => none

/-- Lines 281-285, one iteration of `for (const row of rows)`: skip the row
when the visitors guard fails, otherwise write
`totals[path] = (totals[path] ?? 0) + visitors` at `path = normalizePath(row?.name)`. -/
def addRow (totals : Totals) (r : RawRow) : Totals :=
  match parsedVisitors r with
  | none => totals
  | some v =>
    let p := normalizePath r.name
    fun k => if k = p then some ((totals p).getD 0 + v) else totals k

/-- Lines 280-286: the whole `for (const row of rows)` loop over one page. -/
def accumulatePage (totals : Totals) (rows : List RawRow) : Totals :=
  rows.foldl addRow totals

/-- The pagination loop of lines 267-287, over an abstract `server` giving
the rows array the metrics endpoint returns for each `offset` (transport,
HTTP and shape failures all `die` before the loop body runs, so the loop is
modelled on the successful fetches).  The loop itself is `for (let offset = 0; ; offset += limit)`
with `if (rows.length === 0) break`; since it has no bound, it is embedded
with an explicit `fuel` counter and returns `none` when `fuel` runs out
before the `break` fires.  `acc` is an observation log of the pages the
loop has accumulated, in order; the code computes only `totals`. -/
def exportLoop (server : Nat → List RawRow) (limit : Nat) :
    Nat → Nat → Totals → List (List RawRow) → Option (Totals × List (List RawRow))
  | 0, _, _, _ => none
  | fuel + 1, offset, totals, acc =>
    let rows := server offset
    if rows.length = 0 then some (totals, acc)
    else exportLoop server limit fuel (offset + limit) (accumulatePage totals rows) (acc ++ [rows])

/-- Example row: name `"/a"`, three visitors. -/
def rowA3 : RawRow := ⟨some ['/', 'a'], VisitorsField.num 3⟩

/-- Example row: name `"a"` (same normalized path as `"/a"`), two visitors. -/
def rowA2 : RawRow := ⟨some ['a'], VisitorsField.num 2⟩

/-- Example row whose `visitors` does not coerce to a finite number. -/
def rowBad : RawRow := ⟨some ['/', 'a'], VisitorsField.nonNumeric⟩

/-- Example row with a negative visitors count. -/
def rowNeg : RawRow := ⟨some ['/', 'a'], VisitorsField.num (-1)⟩

/-- Example server delivering pages of sizes 500, 500, 3, 0 at offsets
0, 500, 1000, 1500 for limit 500. -/
def serverEx : Nat → List RawRow := fun off =>
  if off < 1000 then List.replicate 500 rowA3
  else if off = 1000 then List.replicate 3 rowA3
  else []

/-- Example server that always returns a non-empty page. -/
def serverFull : Nat → List RawRow := fun _ => [rowA3]

/-! ### Share-mode credential exchange (`getAuthHeaders`, umami.mjs lines 192-208) -/

/-- The JSON body of a successful share-lookup response (line 196): the
`json?.token` and `json?.websiteId` accesses of lines 197-198, with `none`
for an absent field. -/
structure ShareResponse where
  token : Option String
  websiteId : Option String
deriving DecidableEq, Repr

/-- The two `die` sites of the share branch, lines 199 and 201. -/
inductive ShareAuthError
  | missingShareToken
  | missingWebsiteId
deriving DecidableEq, Repr

/-- The value built on lines 202-207: the effective website identifier and
the request headers. -/
structure ShareAuthResult where
  websiteId : String
  headers : List (String × String)
deriving DecidableEq, Repr

/-- The `share` branch of `getAuthHeaders`, lines 193-208, starting from
the parsed share response (the network fetch and JSON parse `die` on their
own failures before this logic runs).  Line 199 checks `!shareToken`;
line 200 is `websiteIdArg ?? shareWebsiteId`; line 201 checks
`!websiteId`. -/
def getAuthHeadersShare (resp : ShareResponse) (websiteIdArg : Option String) :
    Except ShareAuthError ShareAuthResult :=
  let shareToken := resp.token
  let shareWebsiteId := resp.websiteId
  if truthy shareToken = false then Except.error ShareAuthError.missingShareToken
  else
    let websiteId := jsCoalesce websiteIdArg shareWebsiteId
    if truthy websiteId = false then Except.error ShareAuthError.missingWebsiteId
    else
      Except.ok ⟨websiteId.getD "", [("x-umami-share-token", shareToken.getD "")]⟩

/-! ### Auth resolver (`resolveAuthArgs`, umami.mjs lines 170-190) -/

/-- The three authentication modes of the CLI. -/
inductive AuthMode
  | share
  | token
  | userpass
deriving DecidableEq, Repr

/-- The auth-relevant command-line arguments; `none` means the flag was not
given at all. -/
structure AuthArgs where
  shareId : Option String
  username : Option String
  password : Option String
  token : Option String
deriving DecidableEq, Repr

/-- The auth-relevant environment variables; `none` means unset. -/
structure EnvVars where
  shareId : Option String
  username : Option String
  password : Option String
  token : Option String
deriving DecidableEq, Repr

/-- The resolved auth bundle returned on line 189. -/
structure AuthSpec where
  mode : AuthMode
  shareId : Option String
  username : Option String
  password : Option String
  token : Option String
deriving DecidableEq, Repr

/-- Line 171: `args.shareId ?? process.env.UMAMI_SHARE_ID`. -/
def resolvedShareId (args : AuthArgs) (env : EnvVars) : Option String :=
  jsCoalesce args.shareId env.shareId

/-- Line 172: `args.username ?? process.env.UMAMI_USERNAME`. -/
def resolvedUsername (args : AuthArgs) (env : EnvVars) : Option String :=
  jsCoalesce args.username env.username

/-- Line 173: `args.password ?? process.env.UMAMI_PASSWORD`. -/
def resolvedPassword (args : AuthArgs) (env : EnvVars) : Option String :=
  jsCoalesce args.password env.password

/-- Line 174: `args.token ?? process.env.UMAMI_TOKEN`. -/
def resolvedToken (args : AuthArgs) (env : EnvVars) : Option String :=
  jsCoalesce args.token env.token

/-- The message of the `die` on line 182. -/
def msgNoAuth : String :=
  "Missing auth: provide --shareId OR --token OR --username/--password (or env vars)."

/-- The message of the `die` on line 183. -/
def msgAmbiguousAuth : String :=
  "Ambiguous auth: provide only one of --shareId, --token, or --username/--password (or env vars)."

/-- The message of the `die` on line 186. -/
def msgIncompleteUserpass : String :=
  "Missing auth: --username and --password are both required (or UMAMI_USERNAME/UMAMI_PASSWORD)."

/-- `resolveAuthArgs(args)` from umami.mjs lines 170-190; `die` is embedded
as `Except.error` carrying the printed message.  The `modes` array built on
lines 176-180 (with its `.filter(Boolean)`) becomes a `filterMap` over the
same three entries in the same order. -/
def resolveAuthArgs (args : AuthArgs) (env : EnvVars) : Except String AuthSpec :=
  let shareId := resolvedShareId args env
  let username := resolvedUsername args env
  let password := resolvedPassword args env
  let token := resolvedToken args env
  let modes : List AuthMode :=
    ([if truthy shareId then some AuthMode.share else none,
      if truthy token then some AuthMode.token else none,
      if truthy username || truthy password then some AuthMode.userpass else none]).filterMap id
  if modes.length = 0 then Except.error msgNoAuth
  else if modes.length > 1 then Except.error msgAmbiguousAuth
  else
    match modes.head? with
    | none => Except.error msgNoAuth
    | some m =>
      if m = AuthMode.userpass ∧ (truthy username = false ∨ truthy password = false) then
        Except.error msgIncompleteUserpass
      else
        Except.ok ⟨m, shareId, username, password, token⟩

/-- The number of auth modes that look present, where `userpass` looks
present as soon as the username or the password does (lines 176-180). -/
def presentModeCount (args : AuthArgs) (env : EnvVars) : Nat :=
  (if truthy (resolvedShareId args env) then 1 else 0) +
    (if truthy (resolvedToken args env) then 1 else 0) +
    (if truthy (resolvedUsername args env) || truthy (resolvedPassword args env) then 1 else 0)

/-! ## Supporting lemmas

The normalizer's output always begins and ends with `'/'`, contains no
query/fragment delimiter and no run of two slashes (`GoodKey`), and the
normalizer is the identity on such strings — together these give
idempotence.  The aggregation lemmas isolate the per-row behaviour of the
fold. -/

theorem cutQueryHash_cons (a : Char) (l : List Char) :
    cutQueryHash (a :: l) = if isQueryHash a then [] else a :: cutQueryHash l := by
  unfold cutQueryHash
  rw [List.findIdx?_cons]
  by_cases h : isQueryHash a = true
  · rw [if_pos h, if_pos h]
    rfl
  · rw [if_neg h, if_neg h, List.findIdx?_start_succ]
    cases hf : l.findIdx? isQueryHash with
    | none => simp [hf]
    | some j => simp [hf, List.take_succ_cons]

/-- `cutQueryHash` is the prefix of the input before the first query or
fragment delimiter. -/
theorem cutQueryHash_eq_takeWhile (l : List Char) :
    cutQueryHash l = l.takeWhile (fun c => !isQueryHash c) := by
  induction l with
  | nil => rfl
  | cons a l ih =>
    rw [cutQueryHash_cons, List.takeWhile_cons]
    by_cases h : isQueryHash a = true
    · simp [h]
    · have h' : isQueryHash a = false := by simpa using h
      simp [h', ih]

theorem cutQueryHash_qh_free (l : List Char) : ∀ c ∈ cutQueryHash l, isQueryHash c = false := by
  rw [cutQueryHash_eq_takeWhile]
  intro c hc
  have := List.mem_takeWhile_imp hc
  simpa using this

theorem cutQueryHash_of_qh_free (l : List Char) (h : ∀ c ∈ l, isQueryHash c = false) :
    cutQueryHash l = l := by
  rw [cutQueryHash_eq_takeWhile, List.takeWhile_eq_self_iff]
  intro c hc
  simp [h c hc]

theorem collapseSlashes_sublist (l : List Char) : (collapseSlashes l).Sublist l := by
  induction l with
  | nil => exact List.Sublist.refl _
  | cons c tl ih =>
    cases tl with
    | nil => exact List.Sublist.refl _
    | cons d rest =>
      unfold collapseSlashes
      by_cases h : (c = '/' && d = '/') = true
      · rw [if_pos h]
        exact ih.cons c
      · rw [if_neg h]
        exact ih.cons₂ c

theorem collapseSlashes_head? (l : List Char) : (collapseSlashes l).head? = l.head? := by
  induction l with
  | nil => rfl
  | cons c tl ih =>
    cases tl with
    | nil => rfl
    | cons d rest =>
      unfold collapseSlashes
      by_cases h : (c = '/' && d = '/') = true
      · have hc : c = '/' := by simpa using (Bool.and_elim_left h)
        have hd : d = '/' := by simpa using (Bool.and_elim_right h)
        rw [if_pos h, ih]
        simp [hc, hd]
      · rw [if_neg h]
        simp

theorem collapseSlashes_ne_nil (l : List Char) (h : l ≠ []) : collapseSlashes l ≠ [] := by
  intro hc
  have := collapseSlashes_head? l
  rw [hc] at this
  cases l with
  | nil => exact h rfl
  | cons a tl => simp at this

theorem collapseSlashes_getLast? (l : List Char) :
    (collapseSlashes l).getLast? = l.getLast? := by
  induction l with
  | nil => rfl
  | cons c tl ih =>
    cases tl with
    | nil => rfl
    | cons d rest =>
      unfold collapseSlashes
      by_cases h : (c = '/' && d = '/') = true
      · rw [if_pos h, ih, List.getLast?_cons_cons]
      · rw [if_neg h]
        have hne : collapseSlashes (d :: rest) ≠ [] := collapseSlashes_ne_nil _ (by simp)
        cases hcol : collapseSlashes (d :: rest) with
        | nil => exact absurd hcol hne
        | cons x xs =>
          rw [List.getLast?_cons_cons, ← hcol, ih, List.getLast?_cons_cons]

theorem collapseSlashes_chain' (l : List Char) :
    List.Chain' notBothSlash (collapseSlashes l) := by
  induction l with
  | nil => exact List.chain'_nil
  | cons c tl ih =>
    cases tl with
    | nil => exact List.chain'_singleton c
    | cons d rest =>
      unfold collapseSlashes
      by_cases h : (c = '/' && d = '/') = true
      · rw [if_pos h]
        exact ih
      · rw [if_neg h]
        rw [List.chain'_cons']
        refine ⟨?_, ih⟩
        intro y hy
        rw [collapseSlashes_head?] at hy
        simp only [List.head?_cons, Option.mem_def, Option.some.injEq] at hy
        subst hy
        rintro ⟨hc, hd⟩
        exact h (by simp [hc, hd])

theorem collapseSlashes_of_chain' (l : List Char) (h : List.Chain' notBothSlash l) :
    collapseSlashes l = l := by
  induction l with
  | nil => rfl
  | cons c tl ih =>
    cases tl with
    | nil => rfl
    | cons d rest =>
      unfold collapseSlashes
      rw [List.chain'_cons] at h
      have hcd : ¬((c = '/' && d = '/') = true) := by
        intro hb
        exact h.1 ⟨by simpa using Bool.and_elim_left hb, by simpa using Bool.and_elim_right hb⟩
      rw [if_neg hcd, ih h.2]

theorem goodKey_root : GoodKey ['/'] := by
  refine ⟨rfl, rfl, List.chain'_singleton _, ?_⟩
  intro c hc
  simp only [List.mem_singleton] at hc
  subst hc
  rfl

theorem addLeadingSlash_head? (l : List Char) : (addLeadingSlash l).head? = some '/' := by
  unfold addLeadingSlash
  by_cases h : l.head? = some '/'
  · rw [if_pos h]
    exact h
  · rw [if_neg h]
    rfl

theorem addLeadingSlash_chain' (l : List Char) (h : List.Chain' notBothSlash l) :
    List.Chain' notBothSlash (addLeadingSlash l) := by
  unfold addLeadingSlash
  by_cases hh : l.head? = some '/'
  · rw [if_pos hh]
    exact h
  · rw [if_neg hh]
    rw [List.chain'_cons']
    refine ⟨?_, h⟩
    intro y hy
    rintro ⟨_, hy'⟩
    exact hh (by rw [Option.mem_def] at hy; rw [hy, hy'])

theorem addLeadingSlash_qh_free (l : List Char) (h : ∀ c ∈ l, isQueryHash c = false) :
    ∀ c ∈ addLeadingSlash l, isQueryHash c = false := by
  unfold addLeadingSlash
  by_cases hh : l.head? = some '/'
  · rw [if_pos hh]
    exact h
  · rw [if_neg hh]
    intro c hc
    rcases List.mem_cons.mp hc with hc | hc
    · subst hc
      rfl
    · exact h c hc

theorem goodKey_addTrailingSlash (l : List Char) (hh : l.head? = some '/')
    (hc : List.Chain' notBothSlash l) (hq : ∀ c ∈ l, isQueryHash c = false) :
    GoodKey (addTrailingSlash l) := by
  have hne : l ≠ [] := by
    intro h
    rw [h] at hh
    simp at hh
  unfold addTrailingSlash
  by_cases h1 : 1 < l.length ∧ l.getLast? = some '/'
  · rw [if_pos h1]
    exact ⟨hh, h1.2, hc, hq⟩
  · rw [if_neg h1]
    by_cases h2 : l ≠ ['/']
    · rw [if_pos h2]
      have hlast : l.getLast? ≠ some '/' := by
        intro hl
        apply h1
        refine ⟨?_, hl⟩
        rcases Nat.lt_or_ge 1 l.length with h | h
        · exact h
        · exfalso
          have hlen1 : l.length = 1 := by
            have : 0 < l.length := List.length_pos.mpr hne
            omega
          obtain ⟨a, ha⟩ := List.length_eq_one.mp hlen1
          subst ha
          simp only [List.head?_cons, Option.some.injEq] at hh
          exact h2 (by rw [hh])
      refine ⟨?_, ?_, ?_, ?_⟩
      · rw [List.head?_append, hh]
        rfl
      · exact List.getLast?_concat l
      · rw [List.chain'_append]
        refine ⟨hc, List.chain'_singleton _, ?_⟩
        intro x hx y hy
        simp only [List.head?_cons, Option.mem_def, Option.some.injEq] at hy
        subst hy
        rintro ⟨hx', _⟩
        rw [Option.mem_def] at hx
        exact hlast (by rw [hx, hx'])
      · intro c hcm
        rcases List.mem_append.mp hcm with hm | hm
        · exact hq c hm
        · simp only [List.mem_singleton] at hm
          subst hm
          rfl
    · rw [if_neg h2]
      have hl : l = ['/'] := by
        by_contra hcon
        exact h2 hcon
      rw [hl]
      exact goodKey_root

/-- Every output of the normalizer satisfies `GoodKey`. -/
theorem goodKey_normalizePath (name : Option (List Char)) : GoodKey (normalizePath name) := by
  cases name with
  | none => exact goodKey_root
  | some s =>
    simp only [normalizePath]
    by_cases h0 : jsTrim s = []
    · rw [if_pos h0]
      exact goodKey_root
    · rw [if_neg h0]
      generalize (if hasSchemeMark (jsTrim s) then
          match urlPathname (jsTrim s) with
          | some p => if p = [] then ['/'] else p
          | none => jsTrim s
        else jsTrim s) = r1
      have hq2 : ∀ c ∈ cutQueryHash r1, isQueryHash c = false := cutQueryHash_qh_free r1
      have hq3 : ∀ c ∈ collapseSlashes (cutQueryHash r1), isQueryHash c = false := by
        intro c hcm
        exact hq2 c ((collapseSlashes_sublist _).mem hcm)
      have hchain3 : List.Chain' notBothSlash (collapseSlashes (cutQueryHash r1)) :=
        collapseSlashes_chain' _
      have hgood : GoodKey (addTrailingSlash (addLeadingSlash (collapseSlashes (cutQueryHash r1)))) :=
        goodKey_addTrailingSlash _ (addLeadingSlash_head? _) (addLeadingSlash_chain' _ hchain3)
          (addLeadingSlash_qh_free _ hq3)
      by_cases h5 : addTrailingSlash (addLeadingSlash (collapseSlashes (cutQueryHash r1))) = []
      · rw [if_pos h5]
        exact goodKey_root
      · rw [if_neg h5]
        exact hgood

theorem jsTrim_of_goodEnds (l : List Char) (hh : l.head? = some '/')
    (hl : l.getLast? = some '/') : jsTrim l = l := by
  have h1 : trimStart l = l := by
    cases l with
    | nil => rfl
    | cons a tl =>
      simp only [List.head?_cons, Option.some.injEq] at hh
      subst hh
      unfold trimStart
      rw [List.dropWhile_cons, if_neg]
      intro hws
      exact absurd hws (by decide)
  have h2 : trimEnd l = l := by
    unfold trimEnd
    cases hr : l.reverse with
    | nil =>
      have : l = [] := by simpa using congrArg List.reverse hr
      rw [this]
      rfl
    | cons a tl =>
      have ha : a = '/' := by
        have := List.head?_reverse l
        rw [hr] at this
        simp only [List.head?_cons, hl, Option.some.injEq] at this
        exact this
      subst ha
      rw [List.dropWhile_cons, if_neg]
      · rw [← hr, List.reverse_reverse]
      · intro hws
        exact absurd hws (by decide)
  unfold jsTrim
  rw [h1, h2]

theorem hasSchemeMark_of_head_slash (l : List Char) (hh : l.head? = some '/') :
    hasSchemeMark l = false := by
  cases l with
  | nil => rfl
  | cons a tl =>
    simp only [List.head?_cons, Option.some.injEq] at hh
    subst hh
    show (('/').isAlpha && schemeRest tl) = false
    rw [show ('/').isAlpha = false from by decide, Bool.false_and]

theorem addLeadingSlash_of_head (l : List Char) (hh : l.head? = some '/') :
    addLeadingSlash l = l := by
  unfold addLeadingSlash
  rw [if_pos hh]

theorem addTrailingSlash_of_goodEnds (l : List Char) (hh : l.head? = some '/')
    (hl : l.getLast? = some '/') : addTrailingSlash l = l := by
  have hne : l ≠ [] := by
    intro h
    rw [h] at hh
    simp at hh
  unfold addTrailingSlash
  by_cases h1 : 1 < l.length
  · rw [if_pos ⟨h1, hl⟩]
  · have hlen1 : l.length = 1 := by
      have : 0 < l.length := List.length_pos.mpr hne
      omega
    obtain ⟨a, ha⟩ := List.length_eq_one.mp hlen1
    subst ha
    simp only [List.head?_cons, Option.some.injEq] at hh
    subst hh
    rw [if_neg, if_neg]
    · simp
    · rintro ⟨hlt, _⟩
      simp at hlt

/-- The normalizer is the identity on strings satisfying `GoodKey`. -/
theorem normalizePath_of_goodKey (l : List Char) (h : GoodKey l) :
    normalizePath (some l) = l := by
  obtain ⟨hh, hl, hc, hq⟩ := h
  have hne : l ≠ [] := by
    intro h
    rw [h] at hh
    simp at hh
  have e1 : cutQueryHash l = l := cutQueryHash_of_qh_free l hq
  have e2 : collapseSlashes l = l := collapseSlashes_of_chain' l hc
  have e3 : addLeadingSlash l = l := addLeadingSlash_of_head l hh
  have e4 : addTrailingSlash l = l := addTrailingSlash_of_goodEnds l hh hl
  simp only [normalizePath, jsTrim_of_goodEnds l hh hl, hne, hasSchemeMark_of_head_slash l hh,
    Bool.false_eq_true, if_false, e1, e2, e3, e4]

theorem addRow_of_none (t : Totals) (r : RawRow) (h : parsedVisitors r = none) :
    addRow t r = t := by
  unfold addRow
  rw [h]

theorem addRow_comm (t : Totals) (a b : RawRow) :
    addRow (addRow t a) b = addRow (addRow t b) a := by
  cases ha : parsedVisitors a with
  | none => rw [addRow_of_none t a ha, addRow_of_none (addRow t b) a ha]
  | some va =>
    cases hb : parsedVisitors b with
    | none => rw [addRow_of_none t b hb, addRow_of_none (addRow t a) b hb]
    | some vb =>
      funext k
      simp only [addRow, ha, hb]
      by_cases hab : normalizePath b.name = normalizePath a.name
      · rw [hab]
        by_cases hk : k = normalizePath a.name
        · rw [if_pos hk, if_pos hk, if_pos rfl, if_pos rfl]
          simp only [Option.getD_some]
          rw [add_right_comm]
        · rw [if_neg hk, if_neg hk, if_neg hk, if_neg hk]
      · by_cases hk1 : k = normalizePath b.name
        · have hk2 : k ≠ normalizePath a.name := by
            rw [hk1]
            exact hab
          rw [if_pos hk1, if_neg hk2, if_pos hk1, if_neg hab]
        · rw [if_neg hk1]
          by_cases hk2 : k = normalizePath a.name
          · have hba : normalizePath a.name ≠ normalizePath b.name := fun h => hab h.symm
            rw [if_pos hk2, if_pos hk2, if_neg hba]
          · rw [if_neg hk2, if_neg hk2, if_neg hk1]

theorem foldl_accumulatePage_flatten (pages : List (List RawRow)) (t : Totals) :
    pages.foldl accumulatePage t = pages.flatten.foldl addRow t := by
  induction pages generalizing t with
  | nil => rfl
  | cons p ps ih =>
    rw [List.foldl_cons, List.flatten_cons, List.foldl_append]
    exact ih (accumulatePage t p)

theorem totals_getD_nonneg (t : Totals) (ht : ∀ k v, t k = some v → 0 ≤ v) (k : List Char) :
    0 ≤ (t k).getD 0 := by
  cases h : t k with
  | none => simp
  | some w => simpa using ht k w h

theorem addRow_nonneg (t : Totals) (r : RawRow)
    (ht : ∀ k v, t k = some v → 0 ≤ v)
    (hr : ∀ q, parsedVisitors r = some q → 0 ≤ q) :
    ∀ k v, addRow t r k = some v → 0 ≤ v := by
  intro k v hkv
  cases h : parsedVisitors r with
  | none =>
    rw [addRow_of_none t r h] at hkv
    exact ht k v hkv
  | some q =>
    simp only [addRow, h] at hkv
    by_cases hk : k = normalizePath r.name
    · rw [if_pos hk] at hkv
      have hv : (t (normalizePath r.name)).getD 0 + q = v := by
        simpa using hkv
      rw [← hv]
      exact add_nonneg (totals_getD_nonneg t ht _) (hr q h)
    · rw [if_neg hk] at hkv
      exact ht k v hkv

theorem addRow_monoD (t : Totals) (r : RawRow)
    (hr : ∀ q, parsedVisitors r = some q → 0 ≤ q) :
    ∀ k, (t k).getD 0 ≤ (addRow t r k).getD 0 := by
  intro k
  cases h : parsedVisitors r with
  | none => rw [addRow_of_none t r h]
  | some q =>
    simp only [addRow, h]
    by_cases hk : k = normalizePath r.name
    · rw [if_pos hk, hk]
      simp only [Option.getD_some]
      exact le_add_of_nonneg_right (hr q h)
    · rw [if_neg hk]

/-! ## Claim theorems -/

/-- C1: auth resolution is mutually exclusive — with presence of the
`share`, `token` and `userpass` mode families computed from the
argument-over-environment resolved values, resolution succeeds exactly when
one mode family is present (and, for `userpass`, both the username and the
password are present), the returned spec reports exactly the present mode,
and resolution fails with a configuration error whenever zero or several
mode families are present. -/
theorem resolveAuthArgs_mutual_exclusion (args : AuthArgs) (env : EnvVars) :
    ((∃ spec, resolveAuthArgs args env = Except.ok spec) ↔
      (presentModeCount args env = 1 ∧
        ((truthy (resolvedUsername args env) || truthy (resolvedPassword args env)) = true →
          truthy (resolvedUsername args env) = true ∧ truthy (resolvedPassword args env) = true))) ∧
    (∀ spec, resolveAuthArgs args env = Except.ok spec →
      ((spec.mode = AuthMode.share ↔ truthy (resolvedShareId args env) = true) ∧
       (spec.mode = AuthMode.token ↔ truthy (resolvedToken args env) = true) ∧
       (spec.mode = AuthMode.userpass ↔
         (truthy (resolvedUsername args env) || truthy (resolvedPassword args env)) = true))) ∧
    (presentModeCount args env ≠ 1 → ∃ e, resolveAuthArgs args env = Except.error e) := by
  cases hS : truthy (resolvedShareId args env) <;>
    cases hT : truthy (resolvedToken args env) <;>
      cases hU : truthy (resolvedUsername args env) <;>
        cases hP : truthy (resolvedPassword args env) <;>
          simp [resolveAuthArgs, presentModeCount, hS, hT, hU, hP]

/-- Witness for C1: a concrete input with two present modes is rejected. -/
theorem resolveAuthArgs_mutual_exclusion_witness :
    ∃ e, resolveAuthArgs ⟨some "S", none, none, some "T"⟩ ⟨none, none, none, none⟩ =
      Except.error e :=
  (resolveAuthArgs_mutual_exclusion ⟨some "S", none, none, some "T"⟩
    ⟨none, none, none, none⟩).2.2 (by decide)

/-- C2: with pages of sizes 500, 500, 3, 0 at offsets 0, 500, 1000, 1500
(limit 500), the loop accumulates exactly the three non-empty pages —
500 + 500 + 3 rows, the short third page does not stop iteration, and the
trailing empty page is never accumulated — and, conversely, over a server
whose every page is non-empty the loop never terminates (no amount of fuel
makes it return). -/
theorem exportLoop_pagination :
    (∀ (server : Nat → List RawRow) (t : Totals) (n : Nat),
        (server 0).length = 500 → (server 500).length = 500 →
        (server 1000).length = 3 → (server 1500).length = 0 →
        (exportLoop server 500 (n + 4) 0 t [] =
            some (accumulatePage (accumulatePage (accumulatePage t (server 0)) (server 500))
                (server 1000),
              [server 0, server 500, server 1000]) ∧
          (([server 0, server 500, server 1000]).map List.length).sum = 500 + 500 + 3 ∧
          [] ∉ [server 0, server 500, server 1000])) ∧
    (∀ (server : Nat → List RawRow) (limit : Nat), (∀ off, server off ≠ []) →
        ∀ (fuel offset : Nat) (t : Totals) (acc : List (List RawRow)),
          exportLoop server limit fuel offset t acc = none) := by
  constructor
  · intro server t n h0 h1 h2 h3
    refine ⟨?_, ?_, ?_⟩
    · rw [show n + 4 = n + 1 + 1 + 1 + 1 from by omega]
      simp [exportLoop, h0, h1, h2, h3]
    · simp [h0, h1, h2]
    · intro hmem
      have hcases : ([] : List RawRow) = server 0 ∨ ([] : List RawRow) = server 500 ∨
          ([] : List RawRow) = server 1000 := by
        simpa using hmem
      rcases hcases with h | h | h
      · rw [← h] at h0
        simp at h0
      · rw [← h] at h1
        simp at h1
      · rw [← h] at h2
        simp at h2
  · intro server limit hne fuel
    induction fuel with
    | zero =>
      intro offset t acc
      rfl
    | succ fuel ih =>
      intro offset t acc
      have hlen : (server offset).length ≠ 0 := by
        intro hc
        exact hne offset (List.length_eq_zero.mp hc)
      simp only [exportLoop]
      rw [if_neg hlen]
      exact ih (offset + limit) (accumulatePage t (server offset)) (acc ++ [server offset])

/-- Witness for C2: the loop over the concrete example servers. -/
theorem exportLoop_pagination_witness :
    exportLoop serverEx 500 (0 + 4) 0 emptyTotals [] =
        some (accumulatePage (accumulatePage (accumulatePage emptyTotals (serverEx 0))
            (serverEx 500)) (serverEx 1000),
          [serverEx 0, serverEx 500, serverEx 1000]) ∧
      exportLoop serverFull 500 6 0 emptyTotals [] = none := by
  refine ⟨(exportLoop_pagination.1 serverEx emptyTotals 0 ?_ ?_ ?_ ?_).1,
    exportLoop_pagination.2 serverFull 500 (fun off => by simp [serverFull]) 6 0 emptyTotals []⟩
  · rw [show serverEx 0 = List.replicate 500 rowA3 from rfl, List.length_replicate]
  · rw [show serverEx 500 = List.replicate 500 rowA3 from rfl, List.length_replicate]
  · rw [show serverEx 1000 = List.replicate 3 rowA3 from rfl, List.length_replicate]
  · rw [show serverEx 1500 = [] from rfl]
    rfl


/-- C3: the path normalizer is idempotent — for every string `x`,
`normalizePath(normalizePath(x))` equals `normalizePath(x)`. -/
theorem normalizePath_idempotent (x : List Char) :
    normalizePath (some (normalizePath (some x))) = normalizePath (some x) :=
  normalizePath_of_goodKey _ (goodKey_normalizePath (some x))

/-- C4 counterexample: a raw row with a negative `visitors` value makes the
stored total negative, and appending it makes an existing total decrease —
so neither non-negativity nor monotone growth holds for every possible
sequence of raw rows. -/
theorem totals_negative_counterexample :
    accumulatePage emptyTotals [rowNeg] ['/', 'a', '/'] = some (-1) ∧
      ((-1 : ℚ) < 0) ∧
      (accumulatePage emptyTotals [rowA3, rowNeg] ['/', 'a', '/']).getD 0 <
        (accumulatePage emptyTotals [rowA3] ['/', 'a', '/']).getD 0 := by
  have hkey : normalizePath (some ['/', 'a']) = ['/', 'a', '/'] := by decide
  refine ⟨?_, by norm_num, ?_⟩ <;>
    norm_num [accumulatePage, addRow, parsedVisitors, rowNeg, rowA3, emptyTotals,
      List.foldl_cons, List.foldl_nil, hkey]

/-- C4 (amended): provided every row's parsed `visitors` value is
non-negative, every value stored in the Totals mapping is non-negative and
each value grows monotonically across accumulation steps. -/
theorem totals_nonneg_mono :
    ∀ (rows : List RawRow) (t : Totals),
      (∀ r ∈ rows, ∀ q, parsedVisitors r = some q → 0 ≤ q) →
      (∀ k v, t k = some v → 0 ≤ v) →
      ((∀ k v, accumulatePage t rows k = some v → 0 ≤ v) ∧
        ∀ k, (t k).getD 0 ≤ (accumulatePage t rows k).getD 0) := by
  intro rows
  induction rows with
  | nil =>
    intro t _ ht
    exact ⟨ht, fun k => le_refl _⟩
  | cons r rs ih =>
    intro t hrows ht
    have hr : ∀ q, parsedVisitors r = some q → 0 ≤ q :=
      hrows r (List.mem_cons_self r rs)
    have hrs : ∀ r' ∈ rs, ∀ q, parsedVisitors r' = some q → 0 ≤ q :=
      fun r' h => hrows r' (List.mem_cons_of_mem r h)
    have h1 : ∀ k v, addRow t r k = some v → 0 ≤ v := addRow_nonneg t r ht hr
    have h2 : ∀ k, (t k).getD 0 ≤ (addRow t r k).getD 0 := addRow_monoD t r hr
    have hacc : accumulatePage t (r :: rs) = accumulatePage (addRow t r) rs := rfl
    rw [hacc]
    have hrec := ih (addRow t r) hrs h1
    exact ⟨hrec.1, fun k => le_trans (h2 k) (hrec.2 k)⟩

/-- Witness for C4 (amended): a concrete accumulation step does not
decrease the total at the affected key. -/
theorem totals_nonneg_mono_witness :
    (emptyTotals ['/', 'a', '/']).getD 0 ≤
      (accumulatePage emptyTotals [rowA3] ['/', 'a', '/']).getD 0 :=
  (totals_nonneg_mono [rowA3] emptyTotals
    (by
      intro r hr q hq
      simp only [List.mem_singleton] at hr
      subst hr
      simp only [rowA3, parsedVisitors, Option.some.injEq] at hq
      rw [← hq]
      norm_num)
    (by
      intro k v h
      simp [emptyTotals] at h)).2 ['/', 'a', '/']

/-- C5: the normalizer maps `"foo"`, `"/foo"`, `"/foo/"`,
`"https://h/foo?q=1"` and `"//foo//"` all to `"/foo/"`, and maps `""`,
`null` and `"/"` all to `"/"`. -/
theorem normalizePath_concrete_examples :
    normalizePath (some ['f', 'o', 'o']) = ['/', 'f', 'o', 'o', '/'] ∧
    normalizePath (some ['/', 'f', 'o', 'o']) = ['/', 'f', 'o', 'o', '/'] ∧
    normalizePath (some ['/', 'f', 'o', 'o', '/']) = ['/', 'f', 'o', 'o', '/'] ∧
    normalizePath
        (some ['h', 't', 't', 'p', 's', ':', '/', '/', 'h', '/', 'f', 'o', 'o', '?', 'q', '=', '1']) =
      ['/', 'f', 'o', 'o', '/'] ∧
    normalizePath (some ['/', '/', 'f', 'o', 'o', '/', '/']) = ['/', 'f', 'o', 'o', '/'] ∧
    normalizePath (some []) = ['/'] ∧
    normalizePath none = ['/'] ∧
    normalizePath (some ['/']) = ['/'] := by
  refine ⟨?_, ?_, ?_, ?_, ?_, ?_, ?_, ?_⟩ <;> decide

/-- C6 counterexample: with a share response carrying both a token and a
website identifier, a `--websiteId` argument explicitly supplied as the
empty string makes the exchange fail, even though the share response's
identifier is available — contradicting "fails with an error exactly when
neither is available". -/
theorem getAuthHeadersShare_counterexample :
    getAuthHeadersShare ⟨some "T", some "W"⟩ (some "") =
        Except.error ShareAuthError.missingWebsiteId ∧
      truthy (some "W") = true ∧ (some "" : Option String) ≠ none := by
  refine ⟨rfl, rfl, by decide⟩

/-- C6 (amended): in share mode the exchange fails when the share response
lacks a truthy token; otherwise the effective website identifier is the
nullish-coalescing of `websiteIdArg` and the share response's identifier
(`websiteIdArg` wins whenever it is supplied, even as the empty string),
the exchange fails exactly when that effective value is absent or empty,
and on success the headers carry the share token. -/
theorem getAuthHeadersShare_spec (resp : ShareResponse) (arg : Option String) :
    (truthy resp.token = false →
      getAuthHeadersShare resp arg = Except.error ShareAuthError.missingShareToken) ∧
    (truthy resp.token = true →
      ((truthy (jsCoalesce arg resp.websiteId) = false →
          getAuthHeadersShare resp arg = Except.error ShareAuthError.missingWebsiteId) ∧
       (truthy (jsCoalesce arg resp.websiteId) = true →
          getAuthHeadersShare resp arg =
            Except.ok ⟨(jsCoalesce arg resp.websiteId).getD "",
              [("x-umami-share-token", resp.token.getD "")]⟩))) ∧
    (∀ s, arg = some s → jsCoalesce arg resp.websiteId = some s) ∧
    (arg = none → jsCoalesce arg resp.websiteId = resp.websiteId) := by
  refine ⟨?_, ?_, ?_, ?_⟩
  · intro h
    simp [getAuthHeadersShare, h]
  · intro h
    refine ⟨?_, ?_⟩ <;> intro h2 <;> simp [getAuthHeadersShare, h, h2]
  · intro s hs
    subst hs
    rfl
  · intro h
    subst h
    rfl

/-- Witness for C6: a successful exchange with no `--websiteId` argument
uses the share response's identifier and carries the share token. -/
theorem getAuthHeadersShare_spec_witness :
    getAuthHeadersShare ⟨some "T", some "W"⟩ none =
      Except.ok ⟨(jsCoalesce none (some "W")).getD "",
        [("x-umami-share-token", (some "T").getD "")]⟩ :=
  ((getAuthHeadersShare_spec ⟨some "T", some "W"⟩ none).2.1 rfl).2 rfl

/-- C7: a row whose `visitors` field does not coerce to a finite number is
skipped without affecting the rest of the page (the aggregation itself is a
total function and cannot fail), a row with an absent `visitors` field
contributes zero, and rows for the same normalized path still sum
correctly. -/
theorem aggregator_row_tolerance :
    (∀ (t : Totals) (l1 l2 : List RawRow) (r : RawRow), parsedVisitors r = none →
        accumulatePage t (l1 ++ r :: l2) = accumulatePage t (l1 ++ l2)) ∧
    (∀ (t : Totals) (r : RawRow), r.visitors = VisitorsField.absent →
        ∀ k, (addRow t r k).getD 0 = (t k).getD 0) ∧
    (∀ (t : Totals) (r1 r2 : RawRow) (q1 q2 : ℚ),
        parsedVisitors r1 = some q1 → parsedVisitors r2 = some q2 →
        normalizePath r2.name = normalizePath r1.name →
        accumulatePage t [r1, r2] (normalizePath r1.name) =
          some ((t (normalizePath r1.name)).getD 0 + q1 + q2)) := by
  refine ⟨?_, ?_, ?_⟩
  · intro t l1 l2 r h
    unfold accumulatePage
    rw [List.foldl_append, List.foldl_cons, addRow_of_none _ r h, ← List.foldl_append]
  · intro t r h k
    have hpv : parsedVisitors r = some 0 := by
      unfold parsedVisitors
      rw [h]
    simp only [addRow, hpv]
    by_cases hk : k = normalizePath r.name
    · rw [if_pos hk, hk]
      simp
    · rw [if_neg hk]
  · intro t r1 r2 q1 q2 h1 h2 hp
    show addRow (addRow t r1) r2 (normalizePath r1.name) = _
    simp only [addRow, h1, h2, hp]
    simp [add_assoc]

/-- Witness for C7: a non-numeric row between two rows of the same
normalized path is skipped, and the two remaining rows sum to `3 + 2`. -/
theorem aggregator_row_tolerance_witness :
    accumulatePage emptyTotals ([rowA3] ++ rowBad :: [rowA2]) =
        accumulatePage emptyTotals ([rowA3] ++ [rowA2]) ∧
      accumulatePage emptyTotals [rowA3, rowA2] (normalizePath rowA3.name) =
        some ((emptyTotals (normalizePath rowA3.name)).getD 0 + 3 + 2) :=
  ⟨aggregator_row_tolerance.1 emptyTotals [rowA3] [rowA2] rowBad rfl,
    aggregator_row_tolerance.2.2 emptyTotals rowA3 rowA2 3 2 rfl rfl (by decide)⟩

/-- C8: aggregation is a commutative fold — accumulating the same multiset
of rows, in any order and under any partition into pages, yields the same
final Totals mapping (exact arithmetic). -/
theorem aggregation_commutative (pagesA pagesB : List (List RawRow))
    (h : pagesA.flatten.Perm pagesB.flatten) (t : Totals) :
    pagesA.foldl accumulatePage t = pagesB.foldl accumulatePage t := by
  rw [foldl_accumulatePage_flatten, foldl_accumulatePage_flatten]
  exact h.foldl_eq' (fun x _ y _ z => addRow_comm z x y) t

/-- Witness for C8: two pagings of the same two rows agree. -/
theorem aggregation_commutative_witness :
    List.foldl accumulatePage emptyTotals [[rowA3, rowA2]] =
      List.foldl accumulatePage emptyTotals [[rowA2], [rowA3]] :=
  aggregation_commutative [[rowA3, rowA2]] [[rowA2], [rowA3]] (by decide) emptyTotals

/-- C9: when the sole present mode family is `userpass` but only one of
username and password is present, resolution fails with the
incomplete-credentials error, which differs from both the zero-modes and
the ambiguous-modes errors. -/
theorem resolveAuthArgs_incomplete_userpass (args : AuthArgs) (env : EnvVars)
    (hs : truthy (resolvedShareId args env) = false)
    (ht : truthy (resolvedToken args env) = false)
    (hup : truthy (resolvedUsername args env) ≠ truthy (resolvedPassword args env)) :
    resolveAuthArgs args env = Except.error msgIncompleteUserpass ∧
      msgIncompleteUserpass ≠ msgNoAuth ∧ msgIncompleteUserpass ≠ msgAmbiguousAuth := by
  refine ⟨?_, by decide, by decide⟩
  cases hU : truthy (resolvedUsername args env) <;>
    cases hP : truthy (resolvedPassword args env) <;>
      first
        | exact absurd (hU.trans hP.symm) hup
        | simp [resolveAuthArgs, hs, ht, hU, hP]

/-- Witness for C9: username without password. -/
theorem resolveAuthArgs_incomplete_userpass_witness :
    resolveAuthArgs ⟨none, some "u", none, none⟩ ⟨none, none, none, none⟩ =
        Except.error msgIncompleteUserpass ∧
      msgIncompleteUserpass ≠ msgNoAuth ∧ msgIncompleteUserpass ≠ msgAmbiguousAuth :=
  resolveAuthArgs_incomplete_userpass ⟨none, some "u", none, none⟩ ⟨none, none, none, none⟩
    (by decide) (by decide) (by decide)

/-- C10: an auth argument given as the empty string overrides its
environment fallback (the coalesced value is the empty string, not the
environment value) and counts as not present, so a `--token` of `""`
alongside a non-empty environment token yields the no-auth configuration
error rather than token mode. -/
theorem resolveAuthArgs_empty_string_override :
    resolveAuthArgs ⟨none, none, none, some ""⟩ ⟨none, none, none, some "env-token"⟩ =
        Except.error msgNoAuth ∧
      resolvedToken ⟨none, none, none, some ""⟩ ⟨none, none, none, some "env-token"⟩ = some "" ∧
      truthy (some "") = false := by
  refine ⟨rfl, rfl, rfl⟩
